import Mathlib

/-!
# Verification of `fetch.py` (GitHub user/repository scraper)

Shallow embedding of the scraper in `src/tdsp1-main/fetch.py`.

Python strings are modelled as `List Char` (ASCII behaviour of `str.strip`,
`str.lstrip`, `str.upper`).  Python `dict` lookups are modelled with
`Option`: `none` means the key is absent; a JSON `null` value stored under a
present key is modelled as `some none`.  Bracket lookup `d['k']` (which
raises `KeyError` on absence) is modelled in the `Except Unit` monad, while
`d.get('k')` is total and returns `none` for an absent key.
-/

namespace Fetch

/-- Python whitespace test (`str.strip` default char class, ASCII part):
space, tab, linefeed, carriage return, vertical tab, form feed. -/
def pyIsSpace (c : Char) : Bool :=
  c.toNat = 32 || c.toNat = 9 || c.toNat = 10 || c.toNat = 13 ||
    c.toNat = 11 || c.toNat = 12

/-- One character of Python `str.upper` (ASCII): `a`..`z` map to `A`..`Z`,
every other character is unchanged. -/
def pyUpperChar (c : Char) : Char :=
  if 97 ≤ c.toNat ∧ c.toNat ≤ 122 then Char.ofNat (c.toNat - 32) else c

/-- Python `str.upper` (ASCII model). -/
def pyUpper (s : List Char) : List Char := s.map pyUpperChar

/-- Python `str.lstrip()` with the default whitespace char class. -/
def lstripWS (s : List Char) : List Char := s.dropWhile pyIsSpace

/-- Python `str.rstrip()` with the default whitespace char class. -/
def rstripWS (s : List Char) : List Char := (s.reverse.dropWhile pyIsSpace).reverse

/-- Python `str.strip()`: remove leading and trailing whitespace. -/
def pyStrip (s : List Char) : List Char := rstripWS (lstripWS s)

/-- Python `str.lstrip('@')`: remove every leading `'@'` character. -/
def lstripAt (s : List Char) : List Char := s.dropWhile (fun c => c = '@')

/-- Python `str(b).lower()` for a boolean `b`. -/
def pyBoolStr (b : Bool) : List Char :=
  if b then ['t', 'r', 'u', 'e'] else ['f', 'a', 'l', 's', 'e']

/-- `GitHubScraper.clean_company_name` (fetch.py lines 46-55).

```python
if not company:
    return ""
cleaned = company.strip().lstrip('@').upper()
return cleaned
```

The argument is `Option (List Char)` because the caller passes
`user_data.get('company')`, which may be Python `None`; `none` and the
empty string are both falsy. -/
def clean_company_name : Option (List Char) → List Char
  | none => []
  | some s => if s = [] then [] else pyUpper (lstripAt (pyStrip s))

/-! ## Character-level lemmas -/

theorem toNat_ofNat_valid {n : Nat} (h : n < 55296) : (Char.ofNat n).toNat = n := by
  rw [Char.ofNat, dif_pos (Or.inl h : Nat.isValidChar n)]
  rfl

theorem pyUpperChar_toNat_of_lower {c : Char}
    (h : 97 ≤ c.toNat ∧ c.toNat ≤ 122) : (pyUpperChar c).toNat = c.toNat - 32 := by
  rw [pyUpperChar, if_pos h]
  exact toNat_ofNat_valid (by omega)

theorem pyUpperChar_toNat_of_not_lower {c : Char}
    (h : ¬ (97 ≤ c.toNat ∧ c.toNat ≤ 122)) : pyUpperChar c = c := by
  rw [pyUpperChar, if_neg h]

/-- `pyUpperChar` is idempotent. -/
theorem pyUpperChar_idem (c : Char) : pyUpperChar (pyUpperChar c) = pyUpperChar c := by
  by_cases h : 97 ≤ c.toNat ∧ c.toNat ≤ 122
  · have h1 : (pyUpperChar c).toNat = c.toNat - 32 := pyUpperChar_toNat_of_lower h
    exact pyUpperChar_toNat_of_not_lower (by omega)
  · rw [pyUpperChar_toNat_of_not_lower h, pyUpperChar_toNat_of_not_lower h]

/-- Uppercasing cannot produce the `'@'` character from any other character. -/
theorem pyUpperChar_eq_at {c : Char} (h : pyUpperChar c = '@') : c = '@' := by
  by_cases hl : 97 ≤ c.toNat ∧ c.toNat ≤ 122
  · have h1 : (pyUpperChar c).toNat = c.toNat - 32 := pyUpperChar_toNat_of_lower hl
    have h2 : ('@' : Char).toNat = 64 := by decide
    rw [h] at h1
    omega
  · rwa [pyUpperChar_toNat_of_not_lower hl] at h

/-- Uppercasing preserves whitespace-ness. -/
theorem pyIsSpace_pyUpperChar (c : Char) : pyIsSpace (pyUpperChar c) = pyIsSpace c := by
  by_cases hl : 97 ≤ c.toNat ∧ c.toNat ≤ 122
  · have h1 : (pyUpperChar c).toNat = c.toNat - 32 := pyUpperChar_toNat_of_lower hl
    have ha : pyIsSpace (pyUpperChar c) = false := by
      simp only [pyIsSpace, h1, Bool.or_eq_false_iff, decide_eq_false_iff_not]
      omega
    have hb : pyIsSpace c = false := by
      simp only [pyIsSpace, Bool.or_eq_false_iff, decide_eq_false_iff_not]
      omega
    rw [ha, hb]
  · rw [pyUpperChar_toNat_of_not_lower hl]

/-! ## List-level lemmas about stripping -/

theorem dropWhile_head?_false {α : Type} (p : α → Bool) (l : List α) {c : α}
    (h : (l.dropWhile p).head? = some c) : p c = false := by
  have hh := List.head?_dropWhile_not p l
  rw [h] at hh
  exact hh

theorem dropWhile_eq_self_of_head? {α : Type} (p : α → Bool) (l : List α)
    (h : ∀ c, l.head? = some c → p c = false) : l.dropWhile p = l := by
  cases l with
  | nil => rfl
  | cons a as => simp [List.dropWhile_cons, h a rfl]

theorem dropWhile_getLast? {α : Type} (p : α → Bool) (l : List α)
    (h : l.dropWhile p ≠ []) : (l.dropWhile p).getLast? = l.getLast? := by
  induction l with
  | nil => simp at h
  | cons a as ih =>
    by_cases hp : p a
    · have hd : (a :: as).dropWhile p = as.dropWhile p := by
        simp [List.dropWhile_cons, hp]
      rw [hd] at h ⊢
      cases as with
      | nil => simp at h
      | cons b t =>
        rw [List.getLast?_cons_cons]
        exact ih h
    · have hd : (a :: as).dropWhile p = a :: as := by
        simp [List.dropWhile_cons, hp]
      rw [hd]

theorem rstripWS_eq_self {l : List Char}
    (h : ∀ c, l.getLast? = some c → pyIsSpace c = false) : rstripWS l = l := by
  rw [rstripWS, dropWhile_eq_self_of_head?, List.reverse_reverse]
  intro c hc
  exact h c (by rwa [List.head?_reverse] at hc)

theorem pyUpper_idem (l : List Char) : pyUpper (pyUpper l) = pyUpper l := by
  simp only [pyUpper, List.map_map]
  exact List.map_congr_left (fun c _ => pyUpperChar_idem c)

/-- The result of the company normalizer is fixed by `pyUpper`. -/
theorem pyUpper_clean (o : Option (List Char)) :
    pyUpper (clean_company_name o) = clean_company_name o := by
  cases o with
  | none => rfl
  | some s =>
    simp only [clean_company_name]
    by_cases h : s = []
    · simp [h, pyUpper]
    · rw [if_neg h, pyUpper_idem]

/-- The last character of the normalizer's output is never whitespace. -/
theorem clean_getLast?_not_space {o : Option (List Char)} {c : Char}
    (h : (clean_company_name o).getLast? = some c) : pyIsSpace c = false := by
  cases o with
  | none => simp [clean_company_name] at h
  | some s =>
    by_cases h0 : s = []
    · simp [clean_company_name, h0] at h
    · simp only [clean_company_name, if_neg h0] at h
      have hne : lstripAt (pyStrip s) ≠ [] := by
        intro he
        rw [he] at h
        simp [pyUpper] at h
      rw [pyUpper, List.getLast?_map] at h
      obtain ⟨c0, hc0, hup⟩ := Option.map_eq_some'.mp h
      rw [lstripAt, dropWhile_getLast? _ _ hne] at hc0
      have hrev : (lstripWS s).reverse.dropWhile pyIsSpace =
          (pyStrip s).reverse := by
        rw [pyStrip, rstripWS, List.reverse_reverse]
      have hc0' : ((lstripWS s).reverse.dropWhile pyIsSpace).head? = some c0 := by
        rw [hrev, List.head?_reverse]
        exact hc0
      have := dropWhile_head?_false pyIsSpace (lstripWS s).reverse hc0'
      rw [← hup, pyIsSpace_pyUpperChar]
      exact this

/-- The first character of the normalizer's output is never `'@'`. -/
theorem clean_head?_not_at {o : Option (List Char)} {c : Char}
    (h : (clean_company_name o).head? = some c) : c ≠ '@' := by
  cases o with
  | none => simp [clean_company_name] at h
  | some s =>
    by_cases h0 : s = []
    · simp [clean_company_name, h0] at h
    · simp only [clean_company_name, if_neg h0] at h
      rw [pyUpper, List.head?_map] at h
      obtain ⟨c0, hc0, hup⟩ := Option.map_eq_some'.mp h
      have hc0f := dropWhile_head?_false (fun c => c = '@') (pyStrip s) hc0
      intro hat
      rw [hat] at hup
      have : c0 = '@' := pyUpperChar_eq_at hup
      simp [this] at hc0f

/-- The company rule as claim C2 states it (spec wording): trim surrounding
whitespace, strip at most a single leading `'@'` character if one is
present, then uppercase the remainder; empty/absent input yields the empty
string. -/
def clean_company_claimed : Option (List Char) → List Char
  | none => []
  | some s =>
    if s = [] then []
    else
      let t := pyStrip s
      pyUpper (if t.head? = some '@' then t.tail else t)

/-- Modelled from the amended claim: trim surrounding whitespace, strip
every leading `'@'` character (not just one), then uppercase the remainder;
empty/absent input yields the empty string. -/
def clean_company_amended (o : Option (List Char)) : List Char :=
  match o with
  | none => []
  | some s =>
    if s = [] then [] else pyUpper ((pyStrip s).dropWhile (fun c => c = '@'))

/-- C2 fails as stated: on `"@@Acme"` the code strips BOTH leading `'@'`
characters (Python `lstrip('@')` removes every leading occurrence), so the
code returns `"ACME"` while the claimed single-`'@'`-strip rule returns
`"@ACME"`. -/
theorem C2_counterexample :
    clean_company_name (some ['@', '@', 'A', 'c', 'm', 'e']) = ['A', 'C', 'M', 'E'] ∧
    clean_company_claimed (some ['@', '@', 'A', 'c', 'm', 'e']) = ['@', 'A', 'C', 'M', 'E'] ∧
    clean_company_name (some ['@', '@', 'A', 'c', 'm', 'e']) ≠
      clean_company_claimed (some ['@', '@', 'A', 'c', 'm', 'e']) := by
  refine ⟨by decide, by decide, by decide⟩

/-- C2 amended: `clean_company_name` trims surrounding whitespace, strips
ALL leading `'@'` characters, then uppercases the remainder; empty or
absent input yields the empty string.  In particular
`clean_company_name "@Acme "` is `"ACME"`, and the empty-string and `None`
cases both give `""`. -/
theorem C2_company_rule_amended :
    (∀ o : Option (List Char), clean_company_name o = clean_company_amended o) ∧
    clean_company_name (some ['@', 'A', 'c', 'm', 'e', ' ']) = ['A', 'C', 'M', 'E'] ∧
    clean_company_name (some []) = [] ∧
    clean_company_name none = [] := by
  refine ⟨fun o => ?_, by decide, rfl, rfl⟩
  cases o <;> rfl

/-- C5 fails as stated: `clean_company_name` is not idempotent.  On
`"@ a"` stripping the leading `'@'` exposes a leading space (the whitespace
trim happened before the `'@'` strip), so one application gives `" A"` and
a second application gives `"A"`. -/
theorem C5_counterexample :
    clean_company_name (some ['@', ' ', 'a']) = [' ', 'A'] ∧
    clean_company_name (some (clean_company_name (some ['@', ' ', 'a']))) = ['A'] ∧
    clean_company_name (some (clean_company_name (some ['@', ' ', 'a']))) ≠
      clean_company_name (some ['@', ' ', 'a']) := by
  refine ⟨by decide, by decide, by decide⟩

/-- C5 amended: `clean_company_name` is idempotent on every input whose
cleaned form has no leading whitespace — that is, whenever stripping the
leading `'@'` run does not expose whitespace (the only failure mode shown
by the counterexample). -/
theorem C5_clean_idempotent_amended (o : Option (List Char))
    (h : lstripWS (clean_company_name o) = clean_company_name o) :
    clean_company_name (some (clean_company_name o)) = clean_company_name o := by
  have hlast := fun (c : Char) (hc : (clean_company_name o).getLast? = some c) =>
    clean_getLast?_not_space hc
  have hhead := fun (c : Char) (hc : (clean_company_name o).head? = some c) =>
    clean_head?_not_at hc
  have hupper := pyUpper_clean o
  generalize hT : clean_company_name o = t at h hlast hhead hupper ⊢
  by_cases h0 : t = []
  · rw [h0]
    rfl
  · simp only [clean_company_name, if_neg h0]
    have h1 : pyStrip t = t := by
      rw [pyStrip, h]
      exact rstripWS_eq_self hlast
    have h2 : lstripAt t = t := by
      rw [lstripAt]
      apply dropWhile_eq_self_of_head?
      intro c hc
      simpa using hhead c hc
    rw [h1, h2, hupper]

/-- Witness for C5's amended theorem at the concrete input `"@Acme"`. -/
theorem C5_clean_idempotent_amended_witness :
    clean_company_name (some (clean_company_name (some ['@', 'A', 'c', 'm', 'e']))) =
      clean_company_name (some ['@', 'A', 'c', 'm', 'e']) :=
  C5_clean_idempotent_amended (some ['@', 'A', 'c', 'm', 'e']) (by decide)

/-! ## Raw API records and normalization (fetch.py lines 80-98) -/

/-- A raw user-detail record as returned by the per-user detail endpoint.
For each dictionary key, the outer `Option` is key presence (`none` = the
key is absent from the dict) and, for nullable fields, the inner `Option`
is JSON `null` vs. an actual value. -/
structure RawUser where
  login : Option (List Char)
  name : Option (Option (List Char))
  company : Option (Option (List Char))
  location : Option (Option (List Char))
  email : Option (Option (List Char))
  hireable : Option (Option Bool)
  bio : Option (Option (List Char))
  public_repos : Option Int
  followers : Option Int
  following : Option Int
  created_at : Option (List Char)
deriving DecidableEq, Repr

/-- One normalized user row (`cleaned_data` in `search_users`). -/
structure UserRow where
  login : List Char
  name : List Char
  company : List Char
  location : List Char
  email : List Char
  hireable : List Char
  bio : List Char
  public_repos : Int
  followers : Int
  following : Int
  created_at : List Char
deriving DecidableEq, Repr

/-- Python bracket lookup `d['k']`: raises `KeyError` when the key is
absent. -/
def dget {α : Type} : Option α → Except Unit α
  | none => .error ()
  | some a => .ok a

/-- `str(user_data['hireable']).lower() if user_data['hireable'] is not
None else ""`. -/
def hireableStr : Option Bool → List Char
  | none => []
  | some b => pyBoolStr b

/-- The normalization of one raw user record into `cleaned_data`
(fetch.py lines 84-96).  Bracket lookups (`user_data['name']`, ...) can
raise; only `company` is read with `user_data.get('company')`.
A nullable string field `x` is rendered with
`user_data['x'] if user_data['x'] else ""`, i.e. `null` (and the empty
string itself) become `""`; `hireable` is rendered
`str(user_data['hireable']).lower()` unless it is `None`. -/
def normalize_user (u : RawUser) : Except Unit UserRow := do
  let login ← dget u.login
  let nameV ← dget u.name
  let locationV ← dget u.location
  let emailV ← dget u.email
  let hireableV ← dget u.hireable
  let bioV ← dget u.bio
  let publicRepos ← dget u.public_repos
  let followersV ← dget u.followers
  let followingV ← dget u.following
  let createdAt ← dget u.created_at
  return { login := login
           name := nameV.getD []
           company := clean_company_name u.company.join
           location := locationV.getD []
           email := emailV.getD []
           hireable := hireableStr hireableV
           bio := bioV.getD []
           public_repos := publicRepos
           followers := followersV
           following := followingV
           created_at := createdAt }

/-- A raw user record whose keys are all present, used as concrete data.
All nullable fields hold `null`. -/
def rawUserAllNull (login : List Char) : RawUser :=
  { login := some login
    name := some none
    company := some none
    location := some none
    email := some none
    hireable := some none
    bio := some none
    public_repos := some 0
    followers := some 0
    following := some 0
    created_at := some ['x'] }

/-- C3 fails as stated: a raw record that HAS `login` but LACKS the `name`
key makes normalization raise a `KeyError` (the code reads
`user_data['name']` with bracket lookup), instead of degrading to the
empty string. -/
theorem C3_counterexample :
    normalize_user { rawUserAllNull ['u'] with name := none } = .error () ∧
    ({ rawUserAllNull ['u'] with name := none } : RawUser).login = some ['u'] := by
  exact ⟨rfl, rfl⟩

/-- C3 amended: normalization never fails on a record in which every
bracket-accessed key (`login`, `name`, `location`, `email`, `hireable`,
`bio`, `public_repos`, `followers`, `following`, `created_at`) is present
— `company` alone may also be absent, being read with `dict.get` — and
every optional field that is `null` (for `company`: `null` or absent)
degrades to the empty string in the output row. -/
theorem C3_normalization_total_amended (u : RawUser)
    (hlogin : u.login.isSome) (hname : u.name.isSome)
    (hlocation : u.location.isSome) (hemail : u.email.isSome)
    (hhireable : u.hireable.isSome) (hbio : u.bio.isSome)
    (hpublic : u.public_repos.isSome) (hfollowers : u.followers.isSome)
    (hfollowing : u.following.isSome) (hcreated : u.created_at.isSome) :
    ∃ row : UserRow, normalize_user u = .ok row ∧
      (u.name = some none → row.name = []) ∧
      (u.company = none ∨ u.company = some none → row.company = []) ∧
      (u.location = some none → row.location = []) ∧
      (u.email = some none → row.email = []) ∧
      (u.hireable = some none → row.hireable = []) ∧
      (u.bio = some none → row.bio = []) := by
  obtain ⟨login, hl⟩ := Option.isSome_iff_exists.mp hlogin
  obtain ⟨nameV, hn⟩ := Option.isSome_iff_exists.mp hname
  obtain ⟨locationV, hlo⟩ := Option.isSome_iff_exists.mp hlocation
  obtain ⟨emailV, he⟩ := Option.isSome_iff_exists.mp hemail
  obtain ⟨hireableV, hh⟩ := Option.isSome_iff_exists.mp hhireable
  obtain ⟨bioV, hb⟩ := Option.isSome_iff_exists.mp hbio
  obtain ⟨publicRepos, hp⟩ := Option.isSome_iff_exists.mp hpublic
  obtain ⟨followersV, hf⟩ := Option.isSome_iff_exists.mp hfollowers
  obtain ⟨followingV, hg⟩ := Option.isSome_iff_exists.mp hfollowing
  obtain ⟨createdAt, hc⟩ := Option.isSome_iff_exists.mp hcreated
  refine ⟨{ login := login
            name := nameV.getD []
            company := clean_company_name u.company.join
            location := locationV.getD []
            email := emailV.getD []
            hireable := hireableStr hireableV
            bio := bioV.getD []
            public_repos := publicRepos
            followers := followersV
            following := followingV
            created_at := createdAt }, ?_, ?_, ?_, ?_, ?_, ?_, ?_⟩
  · simp only [normalize_user, hl, hn, hlo, he, hh, hb, hp, hf, hg, hc, dget]
    rfl
  · intro hx
    rw [hx] at hn
    cases hn
    rfl
  · intro hx
    have hj : u.company.join = none := by
      rcases hx with hx | hx <;> rw [hx] <;> rfl
    rw [hj]
    rfl
  · intro hx
    rw [hx] at hlo
    cases hlo
    rfl
  · intro hx
    rw [hx] at he
    cases he
    rfl
  · intro hx
    rw [hx] at hh
    cases hh
    rfl
  · intro hx
    rw [hx] at hb
    cases hb
    rfl

/-- Witness for C3's amended theorem: a record with every key present and
all nullable fields `null` normalizes successfully, with the optional
string fields empty. -/
theorem C3_normalization_total_amended_witness :
    ∃ row : UserRow, normalize_user (rawUserAllNull ['u']) = .ok row ∧
      ((rawUserAllNull ['u']).name = some none → row.name = []) ∧
      ((rawUserAllNull ['u']).company = none ∨
        (rawUserAllNull ['u']).company = some none → row.company = []) ∧
      ((rawUserAllNull ['u']).location = some none → row.location = []) ∧
      ((rawUserAllNull ['u']).email = some none → row.email = []) ∧
      ((rawUserAllNull ['u']).hireable = some none → row.hireable = []) ∧
      ((rawUserAllNull ['u']).bio = some none → row.bio = []) :=
  C3_normalization_total_amended (rawUserAllNull ['u'])
    rfl rfl rfl rfl rfl rfl rfl rfl rfl rfl

/-! ## `GitHubScraper.search_users` (fetch.py lines 57-102) -/

/-- Process the items of one search page: for each item issue the detail
request (`self._make_request(user['url'])`) and normalize it; a `KeyError`
aborts the whole run (no per-item isolation). -/
def processItems {ι : Type} (detail : ι → RawUser) : List ι → Except Unit (List UserRow)
  | [] => .ok []
  | it :: its =>
    match normalize_user (detail it), processItems detail its with
    | .error e, _ => .error e
    | .ok _, .error e => .error e
    | .ok row, .ok rows => .ok (row :: rows)

/-- The `search_users` pagination loop, modelled against an abstract
upstream: `pages p` is the `items` field of search page `p` (1-based) and
`detail it` is the body of the per-item detail request.  `fuel` bounds how
many loop iterations are unfolded: `none` means the loop is still running
after `fuel` iterations.  A successful run returns
`(rows, pageRequests, detailRequests)`; the final page request — the one
that returns the empty page and stops the loop — is counted. -/
def search_users {ι : Type} (detail : ι → RawUser) (pages : Nat → List ι) :
    Nat → Nat → Option (Except Unit (List UserRow × Nat × Nat))
  | 0, _ => none
  | fuel + 1, page =>
    if (pages page).isEmpty then some (.ok ([], 1, 0))
    else
      match processItems detail (pages page) with
      | .error e => some (.error e)
      | .ok rows =>
        match search_users detail pages fuel (page + 1) with
        | none => none
        | some (.error e) => some (.error e)
        | some (.ok (rest, pr, dr)) =>
          some (.ok (rows ++ rest, pr + 1, dr + (pages page).length))

theorem search_users_empty_page {ι : Type} (detail : ι → RawUser)
    (pages : Nat → List ι) (fuel page : Nat) (h : pages page = []) :
    search_users detail pages (fuel + 1) page = some (.ok ([], 1, 0)) := by
  simp [search_users, h]

theorem search_users_step {ι : Type} (detail : ι → RawUser)
    (pages : Nat → List ι) (fuel page : Nat) (rows rest : List UserRow)
    (pr dr : Nat) (h : pages page ≠ [])
    (hrows : processItems detail (pages page) = .ok rows)
    (hrec : search_users detail pages fuel (page + 1) = some (.ok (rest, pr, dr))) :
    search_users detail pages (fuel + 1) page =
      some (.ok (rows ++ rest, pr + 1, dr + (pages page).length)) := by
  have hemp : (pages page).isEmpty = false := by
    simpa [List.isEmpty_iff] using h
  simp [search_users, hemp, hrows, hrec]

/-- If every item on a list normalizes successfully, processing the list
succeeds and yields one row per item. -/
theorem processItems_ok {ι : Type} (detail : ι → RawUser) (l : List ι)
    (h : ∀ it ∈ l, ∃ r, normalize_user (detail it) = .ok r) :
    ∃ rows, processItems detail l = .ok rows ∧ rows.length = l.length := by
  induction l with
  | nil => exact ⟨[], rfl, rfl⟩
  | cons it its ih =>
    obtain ⟨r, hr⟩ := h it (List.mem_cons_self it its)
    obtain ⟨rows, hrows, hlen⟩ := ih (fun x hx => h x (List.mem_cons_of_mem it hx))
    refine ⟨r :: rows, ?_, by simp [hlen]⟩
    simp [processItems, hr, hrows]

/-- An upstream search that returns pages of 100, 100 and 37 items and
empty pages thereafter (items are opaque indices). -/
def pagesC1 : Nat → List Nat
  | 1 => List.range 100
  | 2 => List.range 100
  | 3 => List.range 37
  | _ => []

/-- The row produced by normalizing `rawUserAllNull ['u']`. -/
def rowAllNull : UserRow :=
  { login := ['u']
    name := []
    company := []
    location := []
    email := []
    hireable := []
    bio := []
    public_repos := 0
    followers := 0
    following := 0
    created_at := ['x'] }

set_option maxRecDepth 20000 in
/-- C1 fails as stated: with pages of 100, 100 and 37 items the run issues
FOUR search-page requests, not three — the loop only stops after
requesting page 4 and finding it empty.  (The 237 rows and 237 detail
requests are as claimed.) -/
theorem C1_counterexample :
    search_users (fun _ => rawUserAllNull ['u']) pagesC1 4 1 =
      some (.ok (List.replicate 237 rowAllNull, 4, 237)) ∧ (4 : Nat) ≠ 3 := by
  exact ⟨rfl, by decide⟩

/-- C1 amended: if the search returns pages of 100, 100 and 37 items
(empty from page 4 on) and every fetched detail record normalizes, then
`search_users` returns exactly 237 normalized rows and issues exactly
4 search-page requests (the three non-empty pages plus the final empty
page that stops the loop) and exactly 237 per-user detail requests. -/
theorem C1_pagination_amended {ι : Type} (detail : ι → RawUser)
    (pages : Nat → List ι) (fuel : Nat)
    (h1 : (pages 1).length = 100) (h2 : (pages 2).length = 100)
    (h3 : (pages 3).length = 37) (h4 : pages 4 = [])
    (hok : ∀ p, ∀ it ∈ pages p, ∃ r, normalize_user (detail it) = .ok r) :
    ∃ rows, search_users detail pages (fuel + 4) 1 = some (.ok (rows, 4, 237)) ∧
      rows.length = 237 := by
  have hne1 : pages 1 ≠ [] := by intro he; rw [he] at h1; simp at h1
  have hne2 : pages 2 ≠ [] := by intro he; rw [he] at h2; simp at h2
  have hne3 : pages 3 ≠ [] := by intro he; rw [he] at h3; simp at h3
  obtain ⟨rows1, hrows1, hlen1⟩ := processItems_ok detail (pages 1) (hok 1)
  obtain ⟨rows2, hrows2, hlen2⟩ := processItems_ok detail (pages 2) (hok 2)
  obtain ⟨rows3, hrows3, hlen3⟩ := processItems_ok detail (pages 3) (hok 3)
  have s4 : search_users detail pages (fuel + 1) 4 = some (.ok ([], 1, 0)) :=
    search_users_empty_page detail pages fuel 4 h4
  have s3 : search_users detail pages (fuel + 2) 3 =
      some (.ok (rows3 ++ [], 2, 0 + (pages 3).length)) :=
    search_users_step detail pages (fuel + 1) 3 rows3 [] 1 0 hne3 hrows3 s4
  rw [h3] at s3
  have s2 : search_users detail pages (fuel + 3) 2 =
      some (.ok (rows2 ++ (rows3 ++ []), 3, 37 + (pages 2).length)) :=
    search_users_step detail pages (fuel + 2) 2 rows2 (rows3 ++ []) 2 (0 + 37)
      hne2 hrows2 s3
  rw [h2] at s2
  have s1 : search_users detail pages (fuel + 4) 1 =
      some (.ok (rows1 ++ (rows2 ++ (rows3 ++ [])), 4, 137 + (pages 1).length)) :=
    search_users_step detail pages (fuel + 3) 1 rows1 (rows2 ++ (rows3 ++ []))
      3 (37 + 100) hne1 hrows1 s2
  rw [h1] at s1
  refine ⟨rows1 ++ (rows2 ++ (rows3 ++ [])), s1, ?_⟩
  simp [hlen1, hlen2, hlen3, h1, h2, h3]

/-- Witness for C1's amended theorem on the concrete upstream `pagesC1`. -/
theorem C1_pagination_amended_witness :
    ∃ rows, search_users (fun _ => rawUserAllNull ['u']) pagesC1 4 1 =
      some (.ok (rows, 4, 237)) ∧ rows.length = 237 := by
  have h := C1_pagination_amended (ι := Nat) (fun _ => rawUserAllNull ['u'])
    pagesC1 0 (by decide) (by decide) (by decide) rfl
    (fun p it _ => ⟨rowAllNull, rfl⟩)
  exact h

/-- C7: the search loop stops only on an empty page.  Part 1: if some page
`N` (reachable from the starting page) is empty, the loop terminates once
the fuel covers the pages up to `N`.  Part 2: if no page in the fuel
window is empty and every item normalizes, the loop is still running after
`fuel` iterations (it processed every page and kept requesting the next,
1-based page index incremented by 1). -/
theorem C7_termination {ι : Type} (detail : ι → RawUser) (pages : Nat → List ι)
    (N page fuel : Nat) :
    (pages N = [] → page ≤ N → N + 1 ≤ fuel + page →
      search_users detail pages fuel page ≠ none) ∧
    ((∀ k, page ≤ k → k < page + fuel → pages k ≠ [] ∧
        ∃ rows, processItems detail (pages k) = .ok rows) →
      search_users detail pages fuel page = none) := by
  constructor
  · induction fuel generalizing page with
    | zero => intro _ hle hf; omega
    | succ f ih =>
      intro hN hle hf
      by_cases hemp : (pages page).isEmpty
      · simp [search_users, hemp]
      · have hne : page ≠ N := by
          intro he
          rw [he, hN] at hemp
          exact hemp rfl
        simp only [search_users, hemp, Bool.false_eq_true, if_false]
        cases hpi : processItems detail (pages page) with
        | error e => simp
        | ok rows =>
          have hrec := ih (page + 1) hN (by omega) (by omega)
          cases hrecv : search_users detail pages f (page + 1) with
          | none => exact absurd hrecv hrec
          | some v =>
            cases v with
            | error e => simp
            | ok t =>
              obtain ⟨rest, pr, dr⟩ := t
              simp
  · induction fuel generalizing page with
    | zero => intro _; rfl
    | succ f ih =>
      intro h
      obtain ⟨hne, rows, hrows⟩ := h page (le_refl page) (by omega)
      have hemp : (pages page).isEmpty = false := by
        simpa [List.isEmpty_iff] using hne
      have hrec : search_users detail pages f (page + 1) = none :=
        ih (page + 1) (fun k hk1 hk2 => h k (by omega) (by omega))
      simp [search_users, hemp, hrows, hrec]

/-- Witness for C7 on `pagesC1`: with an empty page at index 4 the loop
terminates with fuel 4, and with fuel 3 (covering only the three non-empty
pages) it is still running. -/
theorem C7_termination_witness :
    search_users (fun _ => rawUserAllNull ['u']) pagesC1 4 1 ≠ none ∧
    search_users (fun _ => rawUserAllNull ['u']) pagesC1 3 1 = none := by
  constructor
  · exact (C7_termination (fun _ => rawUserAllNull ['u']) pagesC1 4 1 4).1
      rfl (by decide) (by decide)
  · exact (C7_termination (fun _ => rawUserAllNull ['u']) pagesC1 4 1 3).2
      (by
        intro k hk1 hk2
        interval_cases k <;>
          exact ⟨by decide, ⟨_, rfl⟩⟩)

/-! ## `GitHubScraper.get_user_repositories` (fetch.py lines 104-147) -/

/-- A raw repository record as returned by the per-owner listing endpoint.
The fields read with bracket lookup are always present upstream and are
modelled as plain values; `language` may be JSON `null` and `license` may
be absent or `null` (the code reads it with `repo.get('license')`).
`owner_login` is the owner information inside the raw record — the code
never reads it (it uses the `username` call parameter instead), and it is
kept here precisely to state that fact. -/
structure RawRepo where
  owner_login : List Char
  full_name : List Char
  created_at : List Char
  stargazers_count : Int
  watchers_count : Int
  language : Option (List Char)
  has_projects : Bool
  has_wiki : Bool
  license : Option (List Char)
deriving DecidableEq, Repr

/-- One normalized repository row (`repo_data`, fetch.py lines 129-139). -/
structure RepoRow where
  login : List Char
  full_name : List Char
  created_at : List Char
  stargazers_count : Int
  watchers_count : Int
  language : List Char
  has_projects : List Char
  has_wiki : List Char
  license_name : List Char
deriving DecidableEq, Repr

/-- Normalization of one raw repository record.  `login` is set from the
`username` call parameter (line 130: `'login': username`), never from the
record's own owner data. -/
def normalize_repo (username : List Char) (r : RawRepo) : RepoRow :=
  { login := username
    full_name := r.full_name
    created_at := r.created_at
    stargazers_count := r.stargazers_count
    watchers_count := r.watchers_count
    language := r.language.getD []
    has_projects := pyBoolStr r.has_projects
    has_wiki := pyBoolStr r.has_wiki
    license_name := r.license.getD [] }

/-- The `while len(repos) < max_repos` loop of `get_user_repositories`.
`remaining` is the still-unserved suffix of the upstream listing (sorted
by most-recent-push first, as requested with `sort=pushed`,
`direction=desc`); each iteration serves one page of up to 100 records.
The loop stops when the accumulator reaches `max_repos`, when a page is
empty, or when a page has fewer than 100 records.
The loop consumes at least 100 records per iteration, so with `fuel`
exceeding the length of the listing the fuel never runs out; it is indexed
by fuel only to keep the definition kernel-evaluable. -/
def repos_loop (username : List Char) (max_repos : Nat) :
    Nat → List RepoRow → List RawRepo → List RepoRow
  | 0, acc, _ => acc
  | fuel + 1, acc, remaining =>
    if max_repos ≤ acc.length then acc
    else
      let page := remaining.take 100
      if page.isEmpty then acc
      else
        let acc2 := acc ++ page.map (normalize_repo username)
        if page.length < 100 then acc2
        else repos_loop username max_repos fuel acc2 (remaining.drop 100)

/-- `GitHubScraper.get_user_repositories`: run the paging loop over the
upstream listing `allRepos` (most-recently-pushed first) and truncate the
result to `max_repos` records (`return repos[:max_repos]`, line 147). -/
def get_user_repositories (username : List Char) (max_repos : Nat)
    (allRepos : List RawRepo) : List RepoRow :=
  (repos_loop username max_repos (allRepos.length + 1) [] allRepos).take max_repos

/-- Fuel-indexed characterization of the paging loop: up to `take
max_repos`, the loop output is the accumulator followed by the whole
remaining listing, normalized. -/
theorem repos_loop_take (username : List Char) (max_repos : Nat) :
    ∀ fuel remaining acc, remaining.length < fuel →
      (repos_loop username max_repos fuel acc remaining).take max_repos =
        ((acc ++ remaining.map (normalize_repo username)).take max_repos) := by
  intro fuel
  induction fuel with
  | zero =>
    intro remaining acc hlen
    omega
  | succ n ih =>
    intro remaining acc hlen
    rw [repos_loop]
    by_cases hstop : max_repos ≤ acc.length
    · rw [if_pos hstop, List.take_append_of_le_length hstop]
    · rw [if_neg hstop]
      by_cases hemp : (remaining.take 100).isEmpty
      · have hnil : remaining = [] := by
          rcases remaining with _ | ⟨a, as⟩
          · rfl
          · simp [List.isEmpty_iff] at hemp
        subst hnil
        simp
      · simp only [hemp, Bool.false_eq_true, if_false]
        by_cases hshort : (remaining.take 100).length < 100
        · have hall : remaining.take 100 = remaining := by
            rw [List.length_take] at hshort
            exact List.take_of_length_le (by omega)
          rw [if_pos (by rw [hall] at hshort ⊢; exact hshort)]
          rw [hall]
        · rw [if_neg hshort]
          have h100 : remaining.length ≥ 100 := by
            rw [List.length_take] at hshort
            omega
          rw [ih (remaining.drop 100) _ (by simp [List.length_drop]; omega)]
          rw [List.append_assoc, ← List.map_append, List.take_append_drop]

/-- The loop output truncated to `max_repos` is exactly the first
`max_repos` records of the normalized upstream listing. -/
theorem get_user_repositories_eq (username : List Char) (max_repos : Nat)
    (allRepos : List RawRepo) :
    get_user_repositories username max_repos allRepos =
      (allRepos.map (normalize_repo username)).take max_repos := by
  rw [get_user_repositories,
    repos_loop_take username max_repos (allRepos.length + 1) allRepos []
      (Nat.lt_succ_self _)]
  rfl

/-- C6: `get_user_repositories` returns at most `max_repos` records, and
these are exactly the first `max_repos` of the upstream
most-recently-pushed-first listing; with `max_repos = 10` against a user
owning 25 repositories it returns exactly the 10 most-recently-pushed
records. -/
theorem C6_repo_truncation (username : List Char) (max_repos : Nat)
    (allRepos : List RawRepo) :
    (get_user_repositories username max_repos allRepos).length ≤ max_repos ∧
    get_user_repositories username max_repos allRepos =
      (allRepos.map (normalize_repo username)).take max_repos ∧
    (max_repos = 10 → allRepos.length = 25 →
      get_user_repositories username max_repos allRepos =
        (allRepos.take 10).map (normalize_repo username) ∧
      (get_user_repositories username max_repos allRepos).length = 10) := by
  have heq := get_user_repositories_eq username max_repos allRepos
  refine ⟨?_, heq, ?_⟩
  · rw [heq]
    exact List.length_take_le max_repos _
  · intro h10 h25
    subst h10
    constructor
    · rw [heq, List.map_take]
    · rw [heq, List.length_take, List.length_map, h25]
      decide

/-- A concrete raw repository whose own owner data (`['z']`) differs from
the username the code is fetching for. -/
def repoOther : RawRepo :=
  { owner_login := ['z']
    full_name := ['f']
    created_at := ['c']
    stargazers_count := 1
    watchers_count := 2
    language := none
    has_projects := true
    has_wiki := false
    license := some ['m', 'i', 't'] }

/-- Witness for C6 at `max_repos = 10` against a user owning 25
repositories. -/
theorem C6_repo_truncation_witness :
    (get_user_repositories ['u'] 10 (List.replicate 25 repoOther)).length ≤ 10 ∧
    get_user_repositories ['u'] 10 (List.replicate 25 repoOther) =
      ((List.replicate 25 repoOther).take 10).map (normalize_repo ['u']) ∧
    (get_user_repositories ['u'] 10 (List.replicate 25 repoOther)).length = 10 := by
  have h := C6_repo_truncation ['u'] 10 (List.replicate 25 repoOther)
  have h3 := h.2.2 rfl (by decide)
  exact ⟨h.1, h3.1, h3.2⟩

/-- C10: every record returned by `get_user_repositories` has its `login`
field equal to the `username` call parameter — it is never taken from the
owner data inside the raw repository record (which the universally
quantified `allRepos` leaves arbitrary). -/
theorem C10_login_from_parameter (username : List Char) (max_repos : Nat)
    (allRepos : List RawRepo) (row : RepoRow)
    (hrow : row ∈ get_user_repositories username max_repos allRepos) :
    row.login = username := by
  rw [get_user_repositories_eq] at hrow
  have hmem := List.mem_of_mem_take hrow
  obtain ⟨r, _, hrow2⟩ := List.mem_map.mp hmem
  rw [← hrow2]
  rfl

/-- Witness for C10: fetching for `['u']` a repository whose raw owner
data says `['z']` still yields a row with login `['u']`. -/
theorem C10_login_from_parameter_witness :
    (normalize_repo ['u'] repoOther).login = ['u'] :=
  C10_login_from_parameter ['u'] 5 [repoOther] (normalize_repo ['u'] repoOther)
    (by decide)

/-! ## `main` (fetch.py lines 149-175) -/

/-- The repository-aggregation loop of `main` (lines 167-170):

```python
all_repos = []
for user in users:
    repos = scraper.get_user_repositories(user['login'])
    all_repos.extend(repos)
```

`repoSource username` is the upstream repository listing for that user
(most-recently-pushed first); `max_repos` is left at its default 500. -/
def collect_all_repos (repoSource : List Char → List RawRepo)
    (users : List UserRow) : List RepoRow :=
  users.foldl
    (fun acc u => acc ++ get_user_repositories u.login 500 (repoSource u.login)) []

theorem foldl_append_eq_flatten {α β : Type} (g : α → List β) (l : List α)
    (acc : List β) :
    l.foldl (fun a x => a ++ g x) acc = acc ++ (l.map g).flatten := by
  induction l generalizing acc with
  | nil => simp
  | cons x xs ih => simp [ih]

/-- C8: the final repository collection is the concatenation of the
per-user repository sequences in user-discovery order, each per-user
sequence kept whole (so its internal most-recently-pushed-first order is
preserved). -/
theorem C8_orchestrator_concat (repoSource : List Char → List RawRepo)
    (users : List UserRow) :
    collect_all_repos repoSource users =
      (users.map fun u => get_user_repositories u.login 500 (repoSource u.login)).flatten := by
  rw [collect_all_repos, foldl_append_eq_flatten]
  rfl

/-- The outcome of one run of `main`. -/
inductive MainResult where
  | abortedNoToken : MainResult
  | stillRunning : MainResult
  | fatalError : MainResult
  | completed (users : List UserRow) (allRepos : List RepoRow)
      (pageRequests detailRequests : Nat) : MainResult
deriving DecidableEq

/-- `main` (fetch.py lines 149-175): read a token, strip it, abort when it
is empty (`if not token: ... return`) — this happens before the scraper is
constructed and before any request — otherwise search for users and then
collect every user's repositories.  The upstream behaviour (`detail`,
`pages`, `repoSource`) is passed as oracles; the aborting branch consults
none of them. -/
def main_run {ι : Type} (detail : ι → RawUser) (pages : Nat → List ι)
    (repoSource : List Char → List RawRepo) (fuel : Nat)
    (rawToken : List Char) : MainResult :=
  if pyStrip rawToken = [] then .abortedNoToken
  else
    match search_users detail pages fuel 1 with
    | none => .stillRunning
    | some (.error _) => .fatalError
    | some (.ok (users, pr, dr)) =>
      .completed users (collect_all_repos repoSource users) pr dr

/-- C9: when the token entered at startup is empty after stripping, the
run aborts with the no-token outcome for EVERY upstream behaviour — in
particular no search-page, detail or repository request is ever consulted
— and the abort is a clean result, not an error. -/
theorem C9_empty_token_aborts {ι : Type} (detail : ι → RawUser)
    (pages : Nat → List ι) (repoSource : List Char → List RawRepo)
    (fuel : Nat) (rawToken : List Char) (h : pyStrip rawToken = []) :
    main_run detail pages repoSource fuel rawToken = .abortedNoToken := by
  rw [main_run, if_pos h]

/-- Witness for C9: a whitespace-only token aborts the run. -/
theorem C9_empty_token_aborts_witness :
    main_run (fun _ : Nat => rawUserAllNull ['u']) pagesC1 (fun _ => [repoOther])
      5 [' ', ' '] = .abortedNoToken :=
  C9_empty_token_aborts (fun _ : Nat => rawUserAllNull ['u']) pagesC1
    (fun _ => [repoOther]) 5 [' ', ' '] (by decide)

/-! ## `GitHubScraper._make_request` (fetch.py lines 28-44) -/

/-- One HTTP response the upstream would give to the (repeatedly retried)
request.  `rateLimitReset` is the `X-RateLimit-Reset` header (`none` =
header absent; the code then defaults the value to 0).
`attributableToRateLimit` is the ground-truth attribution of a 403 —
whether it really was a rate-limit rejection.  The code never inspects it:
it is carried only to state claim C4. -/
structure Resp (α : Type) where
  status : Nat
  body : α
  rateLimitReset : Option Nat
  attributableToRateLimit : Bool
deriving DecidableEq, Repr

/-- Result of `_make_request` against a finite list of upstream responses:
`ok` on the first 200, `httpError` on the first 4xx/5xx status other than
403 (`response.raise_for_status()` raises exactly for statuses 400-599),
`pending` when every listed response was consumed and the retry loop is
still running — which also happens across statuses outside 200/403/4xx/5xx
(e.g. 204 or 304): there `raise_for_status()` does nothing and the loop
silently re-issues the request without sleeping. -/
inductive Outcome (α : Type) where
  | ok (body : α) : Outcome α
  | httpError (status : Nat) : Outcome α
  | pending : Outcome α
deriving DecidableEq, Repr

/-- The `while True` loop of `_make_request`.  `now` is the current clock
(`time.time()`); on a 403 the code sleeps
`max(reset_time - time.time(), 0) + 1` seconds (Nat subtraction is the
truncated `max(· , 0)`) and the clock advances by the sleep.  In the final
`else` branch `response.raise_for_status()` raises `HTTPError` only for
statuses 400-599; for any other status it is a no-op and the `while True`
loop re-issues the request immediately, with no sleep.  Returns the
outcome together with the list of sleep durations performed. -/
def make_request {α : Type} (now : Nat) : List (Resp α) → Outcome α × List Nat
  | [] => (.pending, [])
  | r :: rest =>
    if r.status = 200 then (.ok r.body, [])
    else if r.status = 403 then
      let sleepFor := r.rateLimitReset.getD 0 - now + 1
      let next := make_request (now + sleepFor) rest
      (next.1, sleepFor :: next.2)
    else if 400 ≤ r.status ∧ r.status < 600 then (.httpError r.status, [])
    else make_request now rest

/-- A 403 response that is NOT attributable to rate limiting. -/
def resp403NotRL : Resp (List Char) :=
  { status := 403, body := [], rateLimitReset := some 7,
    attributableToRateLimit := false }

/-- A genuine rate-limit 403 response. -/
def resp403RL : Resp (List Char) :=
  { status := 403, body := [], rateLimitReset := some 7,
    attributableToRateLimit := true }

/-- A successful response. -/
def resp200 : Resp (List Char) :=
  { status := 200, body := ['b'], rateLimitReset := none,
    attributableToRateLimit := false }

/-- C4 fails as stated: the code treats EVERY 403 as rate limiting.  On a
403 not attributable to rate limiting (where the claim's trichotomy
demands failure with an HttpError carrying status 403) the code sleeps
`max(7 - 5, 0) + 1 = 3` seconds and retries, transparently returning the
next response's body. -/
theorem C4_counterexample :
    resp403NotRL.status = 403 ∧
    resp403NotRL.attributableToRateLimit = false ∧
    make_request 5 [resp403NotRL, resp200] = (.ok ['b'], [3]) ∧
    (make_request 5 [resp403NotRL, resp200]).1 ≠ Outcome.httpError 403 := by
  exact ⟨rfl, rfl, rfl, by decide⟩

/-- A response is "retried" when the loop does not resolve on it: a 403
(sleep, then retry) or a status outside 200 and outside 400-599, where
`raise_for_status()` is a no-op and the loop re-issues the request with no
sleep (e.g. 204 or 304).  A response "resolves" when it is a 200 or a
4xx/5xx other than 403. -/
def retried {α : Type} (r : Resp α) : Prop :=
  r.status = 403 ∨ (r.status ≠ 200 ∧ ¬ (400 ≤ r.status ∧ r.status < 600))

instance {α : Type} (r : Resp α) : Decidable (retried r) := by
  unfold retried
  infer_instance

/-- C4 amended: `make_request` returns the parsed body exactly when the
response status is 200, and fails with an HttpError carrying the status
code exactly on a 4xx/5xx status other than 403
(`response.raise_for_status()` raises only for statuses 400-599).  Every
other status is retried indefinitely, invisibly to the caller: EVERY 403
(whether or not actually attributable to rate limiting — the code never
checks) sleeps `max(reset - now, 0) + 1` seconds first, while a non-200
status outside 400-599 (e.g. 204 or 304) is silently re-requested with no
sleep.  Parts: (1) if every response is retried the loop never resolves,
sleeping once per 403 and never otherwise; (2) the outcome is decided by
the first resolving response — 200 gives its body, a 4xx/5xx other than
403 gives an HttpError with that status — through any prefix of retried
responses; (3) a 403 sleeps exactly `max(reset - now, 0) + 1` seconds and
passes the retried request's result through unchanged; (4) a non-200
status outside 400-599 re-issues the request at the same clock with no
sleep recorded. -/
theorem C4_make_request_amended {α : Type} (now : Nat) (rs : List (Resp α)) :
    ((∀ r ∈ rs, retried r) →
      (make_request now rs).1 = .pending ∧
      (make_request now rs).2.length = rs.countP (fun r => r.status == 403)) ∧
    (∀ pre (r : Resp α) rest, rs = pre ++ r :: rest →
      (∀ p ∈ pre, retried p) →
      (r.status = 200 ∨ (400 ≤ r.status ∧ r.status < 600 ∧ r.status ≠ 403)) →
      (make_request now rs).1 =
        if r.status = 200 then Outcome.ok r.body else .httpError r.status) ∧
    (∀ (r : Resp α) rest, rs = r :: rest → r.status = 403 →
      make_request now rs =
        ((make_request (now + ((max ((r.rateLimitReset.getD 0 : Int) - now) 0).toNat + 1)) rest).1,
          ((max ((r.rateLimitReset.getD 0 : Int) - now) 0).toNat + 1) ::
            (make_request (now + ((max ((r.rateLimitReset.getD 0 : Int) - now) 0).toNat + 1)) rest).2)) ∧
    (∀ (r : Resp α) rest, rs = r :: rest → r.status ≠ 200 →
      ¬ (400 ≤ r.status ∧ r.status < 600) →
      make_request now rs = make_request now rest) := by
  have hmax : ∀ (reset n : Nat),
      (max ((reset : Int) - (n : Int)) 0).toNat + 1 = reset - n + 1 := by
    intro reset n
    omega
  refine ⟨?_, ?_, ?_, ?_⟩
  · induction rs generalizing now with
    | nil => intro _; exact ⟨rfl, rfl⟩
    | cons r rest ih =>
      intro h
      have hrest := fun x hx => h x (List.mem_cons_of_mem r hx)
      rcases h r (List.mem_cons_self r rest) with h403 | ⟨h200, hrange⟩
      · have h200 : ¬ r.status = 200 := by omega
        obtain ⟨ih1, ih2⟩ :=
          ih (now + (r.rateLimitReset.getD 0 - now + 1)) hrest
        simp only [make_request, if_neg h200, if_pos h403]
        refine ⟨ih1, ?_⟩
        simp [ih2, List.countP_cons, h403]
      · have h403 : ¬ r.status = 403 := by omega
        obtain ⟨ih1, ih2⟩ := ih now hrest
        simp only [make_request, if_neg h200, if_neg h403, if_neg hrange]
        refine ⟨ih1, ?_⟩
        simp [ih2, List.countP_cons, h403]
  · intro pre r rest hrs hpre hres
    subst hrs
    induction pre generalizing now with
    | nil =>
      rcases hres with h200 | ⟨hge, hlt, h403⟩
      · simp [make_request, h200]
      · have h200 : ¬ r.status = 200 := by omega
        have hrg : 400 ≤ r.status ∧ r.status < 600 := ⟨hge, hlt⟩
        rw [List.nil_append]
        simp only [make_request, if_neg h200, if_neg h403, if_pos hrg]
    | cons p ps ih =>
      have hps := fun x hx => hpre x (List.mem_cons_of_mem p hx)
      rcases hpre p (List.mem_cons_self p ps) with hp403 | ⟨hp200, hprange⟩
      · have hp200 : ¬ p.status = 200 := by omega
        simp only [List.cons_append, make_request, if_neg hp200, if_pos hp403]
        exact ih (now + (p.rateLimitReset.getD 0 - now + 1)) hps
      · have hp403 : ¬ p.status = 403 := by omega
        simp only [List.cons_append, make_request, if_neg hp200, if_neg hp403,
          if_neg hprange]
        exact ih now hps
  · intro r rest hrs h403
    subst hrs
    have h200 : ¬ r.status = 200 := by omega
    simp only [make_request, if_neg h200, if_pos h403, hmax]
  · intro r rest hrs h200 hrange
    subst hrs
    have h403 : ¬ r.status = 403 := by omega
    simp only [make_request, if_neg h200, if_neg h403, if_neg hrange]

/-- Witness for C4's amended theorem: a genuine rate-limit 403 followed by
a 200 returns the 200's body to the caller (part 2 of the theorem with the
one-element retry prefix). -/
theorem C4_make_request_amended_witness :
    (make_request 5 [resp403RL, resp200]).1 = Outcome.ok ['b'] := by
  have h := (C4_make_request_amended 5 [resp403RL, resp200]).2.1
    [resp403RL] resp200 [] rfl (by decide) (by decide)
  simpa using h

end Fetch
